import Mathlib

/-!
Shallow embedding of the fingerprint diff-and-consensus engine of
sdm-pack-fingerprints: ballot aggregation (voteResults), the fingerprint
extraction runner (fingerprintRunner, present twice in the source), team
preference reads (fpPreferences / fpPreference), diff rendering
(renderDiff) and the identity hash (consistentHash).

The ClojureScript functions live in the atomist.main namespace; the
TypeScript runner lives in lib/machine/FingerprintSupport.ts and in a
second identical copy.  Each definition below is translated directly from
the corresponding source function.
-/

namespace SdmFingerprints

/-! ### Data model -/

/-- A Fingerprint value: stable name, content hash and structured payload.
The payload entries are opaque to the engine; they are modeled as strings. -/
structure FP where
  name : String
  sha : String
  data : List String
  deriving Repr, DecidableEq

/-! ### Ballot aggregation: voteResults (atomist.main) -/

/-- One element of the vote list handed to voteResults, as seen after
js->clj: either not a map at all, or a map of which the aggregation reads
the decision and name keys.  A decision key that is absent or holds nil is
`none`; a decision holding a truthy non-string value behaves, for every
comparison the aggregation performs, like a string other than Against and
For, so `Option String` is an adequate codomain.  The abstain flag records
the extra key of the map literal produced by setNewTargetFingerprint. -/
inductive VoteVal where
  | nonMapVal : VoteVal
  | mapVal (decision : Option String) (name : Option String) (abstain : Bool) : VoteVal
  deriving Repr, DecidableEq

/-- Keyword lookup (:decision v): nil on a non-map value. -/
def decisionOf : VoteVal → Option String
  | .nonMapVal => none
  | .mapVal d _ _ => d

/-- Keyword lookup (:name v): nil on a non-map value. -/
def nameOf : VoteVal → Option String
  | .nonMapVal => none
  | .mapVal _ n _ => n

/-- The (map? v) test of voteResults. -/
def isMapVal : VoteVal → Bool
  | .nonMapVal => false
  | .mapVal _ _ _ => true

/-- The filter applied first by voteResults:
(and (map? v) (:decision v)) — a map whose decision key is truthy. -/
def voteKept (v : VoteVal) : Bool :=
  isMapVal v && (decisionOf v).isSome

/-- The let-bound vs of voteResults: the kept votes, in order. -/
def keptVotes (votes : List VoteVal) : List VoteVal :=
  votes.filter voteKept

/-- Result record of voteResults.  failedFps and successFps carry the
name key of each contributing vote (nil — none — when a vote has no
name key). -/
structure VoteResult where
  failed : Bool
  failedFps : List (Option String)
  successFps : List (Option String)
  failedVotes : List VoteVal
  deriving Repr, DecidableEq

/-- Translation of voteResults (atomist.main):
failed is (boolean (some Against vs)); failedFps and successFps map :name
over the Against and For subsequences of vs; failedVotes is the Against
subsequence itself. -/
def voteResults (votes : List VoteVal) : VoteResult :=
  { failed := (keptVotes votes).any (fun v => decisionOf v == some "Against")
    failedFps := ((keptVotes votes).filter (fun v => decisionOf v == some "Against")).map nameOf
    successFps := ((keptVotes votes).filter (fun v => decisionOf v == some "For")).map nameOf
    failedVotes := (keptVotes votes).filter (fun v => decisionOf v == some "Against") }

/-- The Vote literal returned by setNewTargetFingerprint
(lib/fingerprints/applyFingerprint.ts): the function sends a Slack message
through the external message client and then returns the object literal
with the single key abstain set to true — a map with neither a decision
nor a name key. -/
def setNewTargetFingerprintVote : VoteVal :=
  .mapVal none none true

/-- A concrete Against vote used to instantiate theorems. -/
def demoAgainstVote : VoteVal :=
  .mapVal (some "Against") (some "npm-project-dep-left-pad") false

/-- A concrete For vote used to instantiate theorems. -/
def demoForVote : VoteVal :=
  .mapVal (some "For") (some "docker-base-image") false

/-! ### Extraction runner: fingerprintRunner (two identical copies) -/

/-- Outcome of awaiting one registration's extract call on a project:
the promise rejects (the extractor throws), resolves to a falsy value
(the extractor returned nothing), resolves to a single truthy non-array
fingerprint, or resolves to an array of fingerprints. -/
inductive ExtractOutcome where
  | throws : ExtractOutcome
  | falsy : ExtractOutcome
  | single (fp : FP) : ExtractOutcome
  | arr (fps : List FP) : ExtractOutcome
  deriving Repr, DecidableEq

/-- A FingerprintRegistration as consumed by the runner: only selector and
extract take part (the optional apply and summary functions are never read
by the runner and are omitted). -/
structure FingerprintRegistration (Proj : Type) where
  selector : FP → Bool
  extract : Proj → ExtractOutcome

/-- Loop body of fingerprintRunner (src/unnamed/part_001): inside try,
a truthy non-array result is pushed, a truthy array result is concatenated
(an empty array concatenates nothing), a falsy result takes neither
branch; a throw is caught, logged and leaves the accumulator unchanged. -/
def runnerStep (fps : List FP) : ExtractOutcome → List FP
  | .throws => fps
  | .falsy => fps
  | .single fp => fps ++ [fp]
  | .arr l => fps ++ l

/-- Translation of fingerprintRunner (src/unnamed/part_001, lines 404-425):
a fold of the loop body over the registrations starting from the empty
array. -/
def fingerprintRunner {Proj : Type} (fingerprinters : List (FingerprintRegistration Proj))
    (p : Proj) : List FP :=
  fingerprinters.foldl (fun fps f => runnerStep fps (f.extract p)) []

/-- Loop body of the second, textually identical fingerprintRunner copy in
lib/machine/FingerprintSupport.ts (lines 316-337). -/
def runnerStepFS (fps : List FP) : ExtractOutcome → List FP
  | .throws => fps
  | .falsy => fps
  | .single fp => fps ++ [fp]
  | .arr l => fps ++ l

/-- Translation of the fingerprintRunner copy in
lib/machine/FingerprintSupport.ts. -/
def fingerprintRunnerFS {Proj : Type} (fingerprinters : List (FingerprintRegistration Proj))
    (p : Proj) : List FP :=
  fingerprinters.foldl (fun fps f => runnerStepFS fps (f.extract p)) []

/-- Modelled from the spec: the contribution of one extractor to the run —
single-Fingerprint results appended, sequence results flattened, nothing
and caught failures contributing nothing. -/
def specContribution : ExtractOutcome → List FP
  | .throws => []
  | .falsy => []
  | .single fp => [fp]
  | .arr l => l

/-- Modelled from the spec: the runner returns the per-extractor
contributions of the registrations, flattened in registration order. -/
def runnerSpec {Proj : Type} (fingerprinters : List (FingerprintRegistration Proj))
    (p : Proj) : List FP :=
  (fingerprinters.map (fun f => specContribution (f.extract p))).flatten

/-! ### Target preference reads: fpPreferences and fpPreference (atomist.main) -/

/-- The projection of one parsed preference value that the read path
inspects: presence of the name, sha and data keys, the string held by the
name key when it holds a string, and an opaque identifier standing for the
remaining content of the map (sha and data payloads are never inspected by
the read path). -/
structure PrefMap where
  hasNameKey : Bool
  hasShaKey : Bool
  hasDataKey : Bool
  nameVal : Option String
  rest : Nat
  deriving Repr, DecidableEq

/-- Outcome of (try (json->clj value) (catch ...)) on one stored
preference value: the parse throws (caught, yielding nil), parses to a
falsy value (nil or false), parses to a truthy non-map (string, number or
vector — keyword lookup yields nil on these in ClojureScript), or parses
to a map. -/
inductive ParseOutcome where
  | exn : ParseOutcome
  | falsyVal : ParseOutcome
  | nonMapTruthy : ParseOutcome
  | mapOutcome (m : PrefMap) : ParseOutcome
  deriving Repr, DecidableEq

/-- One ChatTeam preference record {name value}: the record's own name
key is destructured by fpPreferences but never used; parsed is the decode
outcome of its value string. -/
structure PrefEntry where
  key : String
  parsed : ParseOutcome
  deriving Repr, DecidableEq

/-- Clojure truthiness of the parse result (nil after a caught parse
exception is falsy). -/
def prefTruthy : ParseOutcome → Bool
  | .exn => false
  | .falsyVal => false
  | .nonMapTruthy => true
  | .mapOutcome _ => true

/-- The (contains? x :name) test: false on every non-map value. -/
def containsName : ParseOutcome → Bool
  | .mapOutcome m => m.hasNameKey
  | _ => false

/-- The (contains? x :sha) test. -/
def containsSha : ParseOutcome → Bool
  | .mapOutcome m => m.hasShaKey
  | _ => false

/-- The (contains? x :data) test. -/
def containsData : ParseOutcome → Bool
  | .mapOutcome m => m.hasDataKey
  | _ => false

/-- Translation of fpPreferences (atomist.main): map the decode over the
preference records, then keep the results x with
(and x (contains? x :name) (contains? x :sha) (contains? x :data)). -/
def fpPreferences (blob : List PrefEntry) : List ParseOutcome :=
  ((blob.map (fun e => e.parsed)).filter
    (fun x => prefTruthy x && containsName x && containsSha x && containsData x))

/-- Keyword lookup (:name x) on a parse result. -/
def prefName : ParseOutcome → Option String
  | .mapOutcome m => m.nameVal
  | _ => none

/-- Translation of fpPreference (atomist.main): the first element of
fpPreferences whose name key equals fp-name (Clojure some over
(if (= fp-name (:name x)) x); every kept element is a truthy map, so
returning x coincides with find?). -/
def fpPreference (blob : List PrefEntry) (fpName : String) : Option ParseOutcome :=
  (fpPreferences blob).find? (fun x => prefName x == some fpName)

/-- Modelled from the spec: an entry's stored value is well shaped when it
parses as JSON and the parsed value contains all of the fields name, sha
and data. -/
def specWellShaped : ParseOutcome → Bool
  | .mapOutcome m => m.hasNameKey && m.hasShaKey && m.hasDataKey
  | _ => false

/-- The well-shaped example entry of the spec, named a. -/
def demoGoodPref : PrefEntry :=
  { key := "atomist---fingerprints", parsed := .mapOutcome
      { hasNameKey := true, hasShaKey := true, hasDataKey := true
        nameVal := some "a", rest := 0 } }

/-- The garbage example entry of the spec: a map holding only an unrelated
key. -/
def demoGarbagePref : PrefEntry :=
  { key := "atomist---fingerprints", parsed := .mapOutcome
      { hasNameKey := false, hasShaKey := false, hasDataKey := false
        nameVal := none, rest := 1 } }

/-- The two-entry example blob of the spec. -/
def demoBlob : List PrefEntry :=
  [demoGoodPref, demoGarbagePref]

/-! ### Diff rendering: renderDiff (atomist.main) -/

/-- Translation of format-list: surround every element with backticks and
join with commas. -/
def formatList (xs : List String) : String :=
  String.intercalate "," (xs.map (fun x => "`" ++ x ++ "`"))

/-- The fields of the Diff event that renderDiff destructures: owner and
repo, the from and to entries of the data key (absent — js undefined,
hence nil — is none; note a present empty vector is truthy in
ClojureScript and so counts as present), and the name of the top-level
from fingerprint, modeled as the string rendered for it by the %s format
directive. -/
structure DiffEvent where
  owner : String
  repo : String
  fromName : String
  dataFrom : Option (List String)
  dataTo : Option (List String)
  deriving Repr, DecidableEq

/-- Translation of renderDiff (atomist.main): nil — none — when both
data.from and data.to are absent, otherwise the removed and added pieces
joined by a comma when both are present, followed by the owner/repo and
fingerprint name line. -/
def renderDiff (d : DiffEvent) : Option String :=
  if d.dataFrom.isSome || d.dataTo.isSome then
    some ((match d.dataFrom with
            | some xs => "removed " ++ formatList xs
            | none => "")
          ++ (if d.dataFrom.isSome && d.dataTo.isSome then ", " else "")
          ++ (match d.dataTo with
            | some xs => "added: " ++ formatList xs
            | none => "")
          ++ "\n" ++ d.owner ++ "/" ++ d.repo ++ " " ++ d.fromName)
  else none

/-! ### Identity hashing: consistentHash (atomist.main) -/

/-- EDN payload data as produced by js->clj on a fingerprint payload. -/
inductive Edn where
  | str (s : String) : Edn
  | num (n : Int) : Edn
  | kw (k : String) : Edn
  | vec (xs : List Edn) : Edn

/-- Translation of consistentHash (atomist.main):
(.toString (hasch/uuid5 (hasch/edn-hash (js->clj edn)))).  The hasch
library functions edn-hash and uuid5 composed with toString are external
pure functions of their argument (no ambient state, clock or randomness is
consulted), modeled as explicit function parameters; js->clj is the
identity on the modeled Edn data. -/
def consistentHash (ednHash : Edn → List Nat) (uuidToString : List Nat → String)
    (edn : Edn) : String :=
  uuidToString (ednHash edn)

/-! ### Helper lemmas -/

/-- A vote whose decision key holds a string passes the voteKept filter. -/
theorem voteKept_of_decision {v : VoteVal} {s : String} (h : decisionOf v = some s) :
    voteKept v = true := by
  cases v with
  | nonMapVal => simp [decisionOf] at h
  | mapVal d n a => simp only [decisionOf] at h; simp [voteKept, isMapVal, decisionOf, h]

/-- Filtering the kept votes by a concrete decision string equals filtering
the original vote list by that decision. -/
theorem keptVotes_filter_decision (s : String) (votes : List VoteVal) :
    (keptVotes votes).filter (fun v => decisionOf v == some s) =
      votes.filter (fun v => decisionOf v == some s) := by
  unfold keptVotes
  rw [List.filter_filter]
  apply List.filter_congr
  intro v _
  cases v with
  | nonMapVal => simp [decisionOf, voteKept, isMapVal]
  | mapVal d n a =>
    cases d with
    | none => simp [decisionOf, voteKept, isMapVal]
    | some t => simp [decisionOf, voteKept, isMapVal]

/-- The failedVotes field is the Against-filtered original vote list. -/
theorem voteResults_failedVotes (votes : List VoteVal) :
    (voteResults votes).failedVotes =
      votes.filter (fun v => decisionOf v == some "Against") := by
  simp only [voteResults]
  exact keptVotes_filter_decision "Against" votes

/-- The failedFps field maps the name key over the Against-filtered
original vote list. -/
theorem voteResults_failedFps (votes : List VoteVal) :
    (voteResults votes).failedFps =
      (votes.filter (fun v => decisionOf v == some "Against")).map nameOf := by
  simp only [voteResults]
  rw [keptVotes_filter_decision "Against" votes]

/-- The successFps field maps the name key over the For-filtered original
vote list. -/
theorem voteResults_successFps (votes : List VoteVal) :
    (voteResults votes).successFps =
      (votes.filter (fun v => decisionOf v == some "For")).map nameOf := by
  simp only [voteResults]
  rw [keptVotes_filter_decision "For" votes]

/-- The failed flag holds exactly when some original vote decides
Against. -/
theorem voteResults_failed_iff (votes : List VoteVal) :
    ((voteResults votes).failed = true) ↔
      ∃ v ∈ votes, decisionOf v = some "Against" := by
  simp only [voteResults, keptVotes, List.any_eq_true, List.mem_filter]
  constructor
  · rintro ⟨v, ⟨hv, _⟩, hd⟩
    exact ⟨v, hv, by simpa using hd⟩
  · rintro ⟨v, hv, hd⟩
    exact ⟨v, ⟨hv, voteKept_of_decision hd⟩, by simpa using hd⟩

/-- Pointwise agreement of the fpPreferences keep-filter with the
spec-modelled well-shapedness test. -/
theorem prefKeep_eq_specWellShaped (x : ParseOutcome) :
    (prefTruthy x && containsName x && containsSha x && containsData x) =
      specWellShaped x := by
  cases x <;>
    simp [prefTruthy, containsName, containsSha, containsData, specWellShaped]

/-- fpPreferences keeps exactly the well-shaped parse results. -/
theorem fpPreferences_eq_wellShaped (blob : List PrefEntry) :
    fpPreferences blob =
      (blob.map (fun e => e.parsed)).filter specWellShaped := by
  unfold fpPreferences
  exact List.filter_congr (fun x _ => prefKeep_eq_specWellShaped x)

/-- Folding the runner loop body from any accumulator appends the
flattened per-extractor contributions. -/
theorem runner_foldl_eq {Proj : Type} (regs : List (FingerprintRegistration Proj))
    (p : Proj) (acc : List FP) :
    regs.foldl (fun fps f => runnerStep fps (f.extract p)) acc =
      acc ++ (regs.map (fun f => specContribution (f.extract p))).flatten := by
  induction regs generalizing acc with
  | nil => simp
  | cons r rs ih =>
    simp only [List.foldl_cons, List.map_cons, List.flatten_cons]
    rw [ih]
    cases hr : r.extract p <;>
      simp [runnerStep, specContribution, hr, List.append_assoc]

/-! ### Claim theorems -/

/-- C1: for every list of votes, the VoteResult produced by voteResults
has failed = true if and only if the list contains at least one vote whose
decision is Against; votes deciding Abstain or For (or anything else)
never make failed true, which is exactly the right-to-left reading of the
equivalence. -/
theorem claim1_failed_iff_against (votes : List VoteVal) :
    ((voteResults votes).failed = true) ↔
      ∃ v ∈ votes, decisionOf v = some "Against" :=
  voteResults_failed_iff votes

/-- C2: the extraction runner equals its specification: every extractor
that throws is caught and contributes nothing (the runner is a total
function into fingerprint lists, so no exception propagates and the run is
never aborted), and the result is exactly the flattening, in registration
order and without deduplication, of the successful extractors'
contributions — single results appended, array results flattened, falsy
results contributing nothing. -/
theorem claim2_runner_isolates_failures {Proj : Type}
    (regs : List (FingerprintRegistration Proj)) (p : Proj) :
    fingerprintRunner regs p = runnerSpec regs p := by
  unfold fingerprintRunner runnerSpec
  simpa using runner_foldl_eq regs p []

/-- C3: fpPreferences returns exactly the entries whose stored value
parses as JSON to a value containing all of the fields name, sha and data;
entries that fail to parse (the caught-exception outcome) or lack a field
are skipped, and the read is a total function, so no exception escapes.
The second conjunct is the spec's example: a blob holding one well-shaped
entry named a and one garbage entry yields exactly the one entry named
a. -/
theorem claim3_lenient_preference_read :
    (∀ blob : List PrefEntry,
      fpPreferences blob = (blob.map (fun e => e.parsed)).filter specWellShaped)
    ∧ fpPreferences demoBlob = [demoGoodPref.parsed] := by
  refine ⟨fpPreferences_eq_wellShaped, ?_⟩
  rfl

/-- C4: the fields of voteResults partition the names by decision:
failedVotes is the subsequence of Against votes in original order,
failedFps the names of exactly those votes, and successFps the names of
exactly the For votes. -/
theorem claim4_vote_fields_partition (votes : List VoteVal) :
    (voteResults votes).failedVotes =
        votes.filter (fun v => decisionOf v == some "Against")
    ∧ (voteResults votes).failedFps =
        (votes.filter (fun v => decisionOf v == some "Against")).map nameOf
    ∧ (voteResults votes).successFps =
        (votes.filter (fun v => decisionOf v == some "For")).map nameOf :=
  ⟨voteResults_failedVotes votes, voteResults_failedFps votes,
    voteResults_successFps votes⟩

/-- C5: the identity hash is a pure, deterministic function of the payload
data: with the external hash functions fixed (they consult no ambient
state), any two computations of consistentHash over equal data — equality
of the modeled EDN values includes nested ordering — return the same hash
string, wherever they are computed. -/
theorem claim5_hash_deterministic (ednHash : Edn → List Nat)
    (uuidToString : List Nat → String) (d₁ d₂ : Edn) (h : d₁ = d₂) :
    consistentHash ednHash uuidToString d₁ = consistentHash ednHash uuidToString d₂ := by
  rw [h]

/-- Witness for C5 at a concrete payload and concrete hash functions. -/
theorem claim5_hash_deterministic_witness :
    consistentHash (fun _ => [0]) (fun _ => "hash-value") (Edn.str "payload")
      = consistentHash (fun _ => [0]) (fun _ => "hash-value") (Edn.str "payload") :=
  claim5_hash_deterministic (fun _ => [0]) (fun _ => "hash-value")
    (Edn.str "payload") (Edn.str "payload") rfl

/-- C6: ballot aggregation is order-insensitive: permuting the vote list
leaves the failed verdict unchanged and permutes failedFps, successFps and
failedVotes, so the multisets of names are the same. -/
theorem claim6_ballot_order_insensitive (l₁ l₂ : List VoteVal) (h : l₁.Perm l₂) :
    (voteResults l₁).failed = (voteResults l₂).failed
    ∧ (voteResults l₁).failedFps.Perm (voteResults l₂).failedFps
    ∧ (voteResults l₁).successFps.Perm (voteResults l₂).successFps
    ∧ (voteResults l₁).failedVotes.Perm (voteResults l₂).failedVotes := by
  refine ⟨?_, ?_, ?_, ?_⟩
  · rw [Bool.eq_iff_iff, voteResults_failed_iff, voteResults_failed_iff]
    constructor
    · rintro ⟨v, hv, hd⟩; exact ⟨v, h.subset hv, hd⟩
    · rintro ⟨v, hv, hd⟩; exact ⟨v, h.symm.subset hv, hd⟩
  · rw [voteResults_failedFps, voteResults_failedFps]
    exact (h.filter _).map nameOf
  · rw [voteResults_successFps, voteResults_successFps]
    exact (h.filter _).map nameOf
  · rw [voteResults_failedVotes, voteResults_failedVotes]
    exact h.filter _

/-- Witness for C6 on a concrete two-vote swap. -/
theorem claim6_ballot_order_insensitive_witness :
    (voteResults [demoAgainstVote, demoForVote]).failed
        = (voteResults [demoForVote, demoAgainstVote]).failed
    ∧ (voteResults [demoAgainstVote, demoForVote]).failedFps.Perm
        (voteResults [demoForVote, demoAgainstVote]).failedFps
    ∧ (voteResults [demoAgainstVote, demoForVote]).successFps.Perm
        (voteResults [demoForVote, demoAgainstVote]).successFps
    ∧ (voteResults [demoAgainstVote, demoForVote]).failedVotes.Perm
        (voteResults [demoForVote, demoAgainstVote]).failedVotes :=
  claim6_ballot_order_insensitive [demoAgainstVote, demoForVote]
    [demoForVote, demoAgainstVote] (List.Perm.swap demoForVote demoAgainstVote [])

/-- C7: the target lookup fpPreference finds some well-shaped entry whose
name field is the requested name whenever the blob holds one (and the
returned entry is well shaped and carries that name), and returns none —
absent — when the blob holds no such entry. -/
theorem claim7_target_lookup (blob : List PrefEntry) (n : String) :
    ((∃ e ∈ blob, specWellShaped e.parsed = true ∧ prefName e.parsed = some n) →
      ∃ x, fpPreference blob n = some x
        ∧ specWellShaped x = true ∧ prefName x = some n)
    ∧ ((¬ ∃ e ∈ blob, specWellShaped e.parsed = true ∧ prefName e.parsed = some n) →
      fpPreference blob n = none) := by
  constructor
  · rintro ⟨e, he, hws, hn⟩
    have hmem : e.parsed ∈ fpPreferences blob := by
      rw [fpPreferences_eq_wellShaped]
      exact List.mem_filter.mpr ⟨List.mem_map_of_mem _ he, hws⟩
    have hsome : ((fpPreferences blob).find?
        (fun x => prefName x == some n)).isSome :=
      List.find?_isSome.mpr ⟨e.parsed, hmem, by simp [hn]⟩
    obtain ⟨x, hx⟩ := Option.isSome_iff_exists.mp hsome
    have hxmem : x ∈ fpPreferences blob := List.mem_of_find?_eq_some hx
    rw [fpPreferences_eq_wellShaped] at hxmem
    refine ⟨x, hx, (List.mem_filter.mp hxmem).2, ?_⟩
    have := List.find?_some hx
    simpa using this
  · intro hne
    apply List.find?_eq_none.mpr
    intro x hxmem hpx
    rw [fpPreferences_eq_wellShaped] at hxmem
    obtain ⟨hxmap, hxws⟩ := List.mem_filter.mp hxmem
    obtain ⟨e, he, hep⟩ := List.mem_map.mp hxmap
    exact hne ⟨e, he, hep ▸ hxws, hep ▸ (by simpa using hpx)⟩

/-- Witness for C7: on the spec's example blob the lookup of a succeeds
with a well-shaped entry named a, and the lookup of a name held by no
entry is absent. -/
theorem claim7_target_lookup_witness :
    (∃ x, fpPreference demoBlob "a" = some x
      ∧ specWellShaped x = true ∧ prefName x = some "a")
    ∧ fpPreference demoBlob "left-pad" = none :=
  ⟨(claim7_target_lookup demoBlob "a").1
      ⟨demoGoodPref, by simp [demoBlob], by decide, by decide⟩,
    (claim7_target_lookup demoBlob "left-pad").2 (by decide)⟩

/-- C8: with data.from absent and data.to present, renderDiff reports only
additions — the rendered message is exactly the added line over everything
in to, with no removed piece; symmetrically, with data.to absent and
data.from present it reports only removals; both cases return a defined
message, raising no error (the embedding of renderDiff is total and yields
some in both cases). -/
theorem claim8_one_sided_diff (owner repo fromName : String) (xs : List String) :
    renderDiff ⟨owner, repo, fromName, none, some xs⟩
      = some ("added: " ++ formatList xs ++ "\n" ++ owner ++ "/" ++ repo
          ++ " " ++ fromName)
    ∧ renderDiff ⟨owner, repo, fromName, some xs, none⟩
      = some ("removed " ++ formatList xs ++ "\n" ++ owner ++ "/" ++ repo
          ++ " " ++ fromName) := by
  constructor <;>
    simp [renderDiff, String.append_assoc]

/-- C9: a vote-list element that is not a map, or that lacks a (truthy)
decision key — such as the abstain-only Vote returned by
setNewTargetFingerprint — is ignored entirely by voteResults: dropping it
from the list leaves the whole result record unchanged, so it appears in
none of failedVotes, failedFps or successFps and can never make failed
true. -/
theorem claim9_nondecision_ignored (l₁ l₂ : List VoteVal) (v : VoteVal)
    (h : isMapVal v = false ∨ decisionOf v = none) :
    voteResults (l₁ ++ v :: l₂) = voteResults (l₁ ++ l₂) := by
  have hv : voteKept v = false := by
    cases h with
    | inl h => simp [voteKept, h]
    | inr h => simp [voteKept, h]
  have hk : keptVotes (l₁ ++ v :: l₂) = keptVotes (l₁ ++ l₂) := by
    simp [keptVotes, List.filter_append, List.filter_cons, hv]
  simp [voteResults, hk]

/-- Witness for C9: inserting the setNewTargetFingerprint abstain Vote
between an Against vote and a For vote changes nothing. -/
theorem claim9_nondecision_ignored_witness :
    voteResults ([demoAgainstVote] ++ setNewTargetFingerprintVote :: [demoForVote])
      = voteResults ([demoAgainstVote] ++ [demoForVote]) :=
  claim9_nondecision_ignored [demoAgainstVote] [demoForVote]
    setNewTargetFingerprintVote (Or.inr rfl)

/-- C10: the two textually identical fingerprintRunner implementations —
in src/unnamed/part_001 and in lib/machine/FingerprintSupport.ts — denote
the same function: for every registration list and every project (hence
every outcome of each extract call) they return identical fingerprint
lists. -/
theorem claim10_runner_copies_agree {Proj : Type}
    (regs : List (FingerprintRegistration Proj)) (p : Proj) :
    fingerprintRunner regs p = fingerprintRunnerFS regs p :=
  rfl

end SdmFingerprints
